import Mathlib

/-!
Shallow embedding of the spell-checking linter of the harper repository.

The definitions below translate `src/harper-core/src/linting/spell_check.rs`
(the linter itself) and the fragment of `src/harper-ls/src/backend.rs` that
creates linters.  Supporting types that belong to the repository but are not
part of the provided sources (`Span`, `Token`, `Document`, `Dictionary`, the
suggestion engine of `crate::spell`, `LintSet`) are modelled from the
specification, as marked in their doc comments.

Machine integers of the source (`usize` indices, the `u8` priority) are
modelled as `Nat`; all values that occur (span indices, priority 63) are far
from any overflow boundary, so no wrap-around modelling is needed.  The
diagnostic `dbg!`/`println!` statements of the source are side effects with no
influence on results and are omitted.  State threaded through `&mut self` is
made explicit: functions return the new `SpellCheck` state, and `lint`
additionally returns the number of invocations of the suggestion engine (an
instrumentation counter used to state the caching claims).
-/

namespace Harper

/-- Modelled from the spec: the canonical word representation is a sequence of
Unicode scalars (`CharString` is a small vector of `char` in the source). -/
abbrev CharString := List Char

/-- Modelled from the spec: a dictionary is used by the linter only through its
membership test `contains_word : [Character] -> bool`, so it is embedded as
that membership function. -/
abbrev Dict := CharString → Bool

/-- Modelled from the spec: a span is a half-open interval of scalar indices.
The source field `end` is a reserved word in Lean and is named `stop` here. -/
structure Span where
  start : Nat
  stop : Nat
deriving DecidableEq, Repr

/-- Modelled from the spec (Open Question 9.a): `Span::push_by` extends the
unlintable span by one scalar to the right, so that it covers the closing
bracket before the probe word is extracted. -/
def Span.push_by (s : Span) (amount : Nat) : Span :=
  { start := s.start, stop := s.stop + amount }

/-- Modelled from the spec: the punctuation subkind distinguishes open-bracket,
close-bracket and other punctuation. -/
inductive Punctuation where
  | openBracket
  | closeBracket
  | other
deriving DecidableEq, Repr

/-- Modelled from the spec: token kinds cover at least `Word`, `Punctuation`,
`Whitespace`, `Newline` and `Unlintable`. -/
inductive TokenKind where
  | word
  | punctuation (sub : Punctuation)
  | whitespace
  | newline
  | unlintable
deriving DecidableEq, Repr

def TokenKind.is_word : TokenKind → Bool
  | TokenKind.word => true
  | _ => false

def TokenKind.is_unlintable : TokenKind → Bool
  | TokenKind.unlintable => true
  | _ => false

def TokenKind.is_open_square : TokenKind → Bool
  | TokenKind.punctuation Punctuation.openBracket => true
  | _ => false

def TokenKind.is_close_square : TokenKind → Bool
  | TokenKind.punctuation Punctuation.closeBracket => true
  | _ => false

/-- Modelled from the spec: a token is a classified span. -/
structure Token where
  kind : TokenKind
  span : Span
deriving DecidableEq, Repr

/-- Modelled from the spec: a document is its content (a sequence of scalars)
with an ordered sequence of classified tokens. -/
structure Document where
  content : CharString
  tokens : List Token
deriving DecidableEq, Repr

/-- Modelled from the spec: `content_of(span)` is the slice view of the
content at the span.  `List.drop`/`List.take` are total, matching the spec's
requirement that the core not crash on malformed input. -/
def Document.get_span_content (document : Document) (s : Span) : CharString :=
  (document.content.drop s.start).take (s.stop - s.start)

def Document.get_span_content_str (document : Document) (s : Span) : String :=
  String.mk (document.get_span_content s)

def Document.get_token (document : Document) (idx : Nat) : Option Token :=
  document.tokens[idx]?

/-- Modelled from the spec: the suggestion variants; the spell linter only
emits `ReplaceWith`, other variants (such as deleting a range) are permitted
by the model. -/
inductive Suggestion where
  | ReplaceWith (chars : CharString)
  | Remove (s : Span)
deriving DecidableEq, Repr

/-- Modelled from the spec: `LintKind` is a tagged variant; spell checking
uses `Spelling`. -/
inductive LintKind where
  | Spelling
  | Grammar
deriving DecidableEq, Repr

/-- Modelled from the spec: the shape of a diagnostic.  `priority` is a `u8`
in the source; the only value emitted is 63, far below the `u8` bound, so the
field is a `Nat`. -/
structure Lint where
  span : Span
  lint_kind : LintKind
  suggestions : List Suggestion
  message : String
  priority : Nat
deriving DecidableEq, Repr

/-- The linter state of `SpellCheck<T>`: the dictionary and the word cache
(`HashMap<CharString, Vec<CharString>>`, embedded as an association list in
insertion order; only lookup and fresh insertion are performed on it). -/
structure SpellCheck where
  dictionary : Dict
  word_cache : List (CharString × List CharString)

/-- `SpellCheck::new`: a fresh linter with an empty word cache. -/
def SpellCheck.new (dictionary : Dict) : SpellCheck :=
  { dictionary := dictionary, word_cache := [] }

/-- The suggestion engine interface used by `cached_suggest_correct_spelling`:
`crate::spell::suggest_correct_spelling` with the dictionary argument already
applied (the dictionary is fixed for the lifetime of a linter).  The remaining
arguments are the query word, `max_results` and `max_distance`. -/
abbrev SuggestionEngine := CharString → Nat → Nat → List CharString

/-- Lookup in the word cache, first matching key (the embedded `HashMap` has
at most one entry per key). -/
def lookup_cache : List (CharString × List CharString) → CharString → Option (List CharString)
  | [], _ => none
  | (k, v) :: rest, w => if k = w then some v else lookup_cache rest w

/-- The body of the back-off `while` loop, recursing structurally on the
number `gas` of iterations that can still happen (`5 - dist`); the loop guard
`suggestions.is_empty() && dist < 5` is kept verbatim, so with `gas = 5 -
dist` the function agrees with the source loop exactly. -/
def back_off_go (suggest : SuggestionEngine) (word : CharString) :
    Nat → List CharString → Nat → List CharString × Nat
  | 0, suggestions, _ => (suggestions, 0)
  | gas + 1, suggestions, dist =>
    if suggestions.isEmpty = true ∧ dist < 5 then
      let next := back_off_go suggest word gas (suggest word 100 dist) (dist + 1)
      (next.1, next.2 + 1)
    else
      (suggestions, 0)

/-- The back-off `while` loop of `cached_suggest_correct_spelling`: while the
suggestion list is empty and `dist < 5`, query the engine with
`max_results = 100` and `max_distance = dist`, then increment `dist`.  The
second component counts the engine invocations performed. -/
def back_off_loop (suggest : SuggestionEngine) (word : CharString)
    (suggestions : List CharString) (dist : Nat) : List CharString × Nat :=
  back_off_go suggest word (5 - dist) suggestions dist

/-- `SpellCheck::cached_suggest_correct_spelling`: on a cache hit return the
cached list; on a miss run the back-off loop starting from an empty list and
`dist = 2`, store the final list in the cache, and return it. -/
def cached_suggest_correct_spelling (suggest : SuggestionEngine) (s : SpellCheck)
    (word : CharString) : List CharString × SpellCheck × Nat :=
  match lookup_cache s.word_cache word with
  | some cached => (cached, s, 0)
  | none =>
    let computed := back_off_loop suggest word [] 2
    (computed.1, { s with word_cache := s.word_cache ++ [(word, computed.1)] }, computed.2)

/-- `potentially_combine_unlintable_markdown_tokens`: require a token at
`idx`, at least three preceding tokens (the `try_into` of the slice
`idx.saturating_sub(3)..idx` into `[Token; 3]` fails otherwise), the first of
them an open bracket, the middle unlintable, the last a close bracket; on
success return the token at `idx` with its span widened to start at the open
bracket, together with the unlintable token's span. -/
def potentially_combine_unlintable_markdown_tokens (document : Document) (idx : Nat) :
    Option (Token × Span) :=
  match document.get_token idx with
  | none => none
  | some missing_token =>
    if 3 ≤ idx then
      match document.tokens[idx - 3]?, document.tokens[idx - 2]?, document.tokens[idx - 1]? with
      | some punct_1, some unlintable, some punct_2 =>
        if punct_1.kind.is_open_square = true ∧ punct_2.kind.is_close_square = true then
          if unlintable.kind.is_unlintable = true then
            some ({ missing_token with
                      span := { start := punct_1.span.start, stop := missing_token.span.stop } },
                  unlintable.span)
          else none
        else none
      | _, _, _ => none
    else none

/-- The fixed prefix of the lint message `format!` string. -/
def message_head : CharString := "Did you mean to spell “".data

/-- The fixed suffix of the lint message `format!` string. -/
def message_tail : CharString := "” this way?".data

/-- The lint message: `format!("Did you mean to spell “{}” this way?", w)`. -/
def mkMessage (w : CharString) : String :=
  String.mk (message_head ++ w ++ message_tail)

/-- Modelled from the spec: the capitalization step uses the Unicode default
case mapping (`char::is_uppercase` and `char::to_uppercase` of the Rust
standard library).  Those tables are external library data, so the embedding
is parameterized by them: `is_uppercase` is the uppercase predicate and
`to_uppercase_first` is the first scalar produced by the uppercase mapping
(the source takes `.to_uppercase().next().unwrap()`; a character with no
uppercase mapping maps to itself). -/
structure CaseMap where
  is_uppercase : Char → Bool
  to_uppercase_first : Char → Char

/-- Replacing the first character of a suggestion by the first scalar of its
uppercase mapping.  The source iterates `first_mut()` (absent for an empty
suggestion, which is left unchanged). -/
def capitalize_first (cm : CaseMap) : CharString → CharString
  | [] => []
  | c :: rest => cm.to_uppercase_first c :: rest

/-- The capitalization step: if the first character of the misspelled word is
uppercase, capitalize the first character of every suggestion. -/
def capitalize_like (cm : CaseMap) (word_chars : CharString)
    (possibilities : List CharString) : List CharString :=
  match word_chars.head? with
  | some mis_f =>
    if cm.is_uppercase mis_f = true then possibilities.map (capitalize_first cm)
    else possibilities
  | none => possibilities

/-- The shared tail of the loop body of `SpellCheck::lint`: compute the
memoized suggestions for the (original) word characters, truncate to the
first 3, capitalize, and emit the lint for the possibly fused token `word`. -/
def emit_lint (suggest : SuggestionEngine) (cm : CaseMap) (document : Document)
    (s : SpellCheck) (word : Token) (word_chars : CharString) :
    Option Lint × SpellCheck × Nat :=
  let computed := cached_suggest_correct_spelling suggest s word_chars
  let possibilities := computed.1.take 3
  let possibilities := capitalize_like cm word_chars possibilities
  (some { span := word.span,
          lint_kind := LintKind.Spelling,
          suggestions := possibilities.map Suggestion.ReplaceWith,
          message := mkMessage (document.get_span_content word.span),
          priority := 63 },
   computed.2.1, computed.2.2)

/-- The loop body of `SpellCheck::lint` for the word token at index `idx`:
skip if the word is in the dictionary; otherwise attempt the markdown
re-composition, skip if the probe word (unlintable span pushed by one,
concatenated with the word) is in the dictionary, and emit a lint for either
the fused token or the original token. -/
def process_word (suggest : SuggestionEngine) (cm : CaseMap) (document : Document)
    (s : SpellCheck) (idx : Nat) (tok : Token) : Option Lint × SpellCheck × Nat :=
  let word_chars := document.get_span_content tok.span
  if s.dictionary word_chars = true then
    (none, s, 0)
  else
    match potentially_combine_unlintable_markdown_tokens document idx with
    | some (new_token, unlintable_span) =>
      let extended := unlintable_span.push_by 1
      let extra_content := document.get_span_content extended
      let suffix_content := document.get_span_content tok.span
      let check_word := extra_content ++ suffix_content
      if s.dictionary check_word = true then
        (none, s, 0)
      else
        emit_lint suggest cm document s new_token word_chars
    | none => emit_lint suggest cm document s tok word_chars

/-- The iteration of `SpellCheck::lint` over the enumerated token stream,
keeping only word tokens (`filter(|(_, t)| t.kind.is_word())`). -/
def lintFrom (suggest : SuggestionEngine) (cm : CaseMap) (document : Document) :
    List (Nat × Token) → SpellCheck → List Lint × SpellCheck × Nat
  | [], s => ([], s, 0)
  | (idx, tok) :: rest, s =>
    if tok.kind.is_word = true then
      let step := process_word suggest cm document s idx tok
      let tail := lintFrom suggest cm document rest step.2.1
      (step.1.toList ++ tail.1, tail.2.1, step.2.2 + tail.2.2)
    else
      lintFrom suggest cm document rest s

/-- `Linter::lint` for `SpellCheck`: walk the enumerated tokens.  Returns the
lints, the final linter state, and the number of suggestion-engine calls. -/
def SpellCheck.lint (suggest : SuggestionEngine) (cm : CaseMap) (s : SpellCheck)
    (document : Document) : List Lint × SpellCheck × Nat :=
  lintFrom suggest cm document document.tokens.enum s

/-- The condition under which the loop body reaches Step 3 (the memoized
suggestion computation) for the token at `idx`: a word token, not in the
dictionary, and not rescued by the markdown re-composition probe. -/
def reaches_step_3 (document : Document) (dictionary : Dict) (idx : Nat) (tok : Token) : Bool :=
  tok.kind.is_word &&
    !(dictionary (document.get_span_content tok.span)) &&
    (match potentially_combine_unlintable_markdown_tokens document idx with
     | some (_, unlintable_span) =>
       !(dictionary (document.get_span_content (unlintable_span.push_by 1) ++
           document.get_span_content tok.span))
     | none => true)

/-- The well-formedness of a document's token sequence stated by the spec:
every span is within bounds and not inverted, and the tokens are
non-overlapping in source order. -/
def well_formed (document : Document) : Prop :=
  (∀ t ∈ document.tokens, t.span.start ≤ t.span.stop ∧ t.span.stop ≤ document.content.length) ∧
  document.tokens.Pairwise fun a b => a.span.stop ≤ b.span.start

/-- Modelled from the spec: the recursion of the unit-cost Levenshtein
distance, made structural on a fuel `gas` bounding the recursion depth (any
`gas ≥ |a| + |b|` computes the true distance; the zero-fuel arm is never
reached from `levenshtein`). -/
def lev_go : Nat → CharString → CharString → Nat
  | _, [], b => b.length
  | _, a, [] => a.length
  | 0, _, _ => 0
  | gas + 1, x :: xs, y :: ys =>
    if x = y then lev_go gas xs ys
    else 1 + min (lev_go gas xs ys) (min (lev_go gas (x :: xs) ys) (lev_go gas xs (y :: ys)))

/-- Modelled from the spec: unit-cost Levenshtein distance
(insert/delete/substitute), used by the reference suggestion engine. -/
def levenshtein (a b : CharString) : Nat :=
  lev_go (a.length + b.length) a b

/-- Dictionary words at Levenshtein distance exactly `0, 1, ..., d` from the
query, in ascending distance, stable within a distance class (dictionary
iteration order). -/
def by_distance (dict_words : List CharString) (query : CharString) : Nat → List CharString
  | 0 => dict_words.filter fun w => levenshtein query w = 0
  | d + 1 => by_distance dict_words query d ++
      (dict_words.filter fun w => levenshtein query w = d + 1)

/-- Modelled from the spec: `crate::spell::suggest_correct_spelling` returns
up to `max_results` dictionary words within Levenshtein distance
`max_distance` of the query, ordered by ascending distance with dictionary
iteration order as the stable tie-break; an empty query returns nothing, and
the query itself is only returned if it is a dictionary member. -/
def suggest_correct_spelling (dict_words : List CharString) (query : CharString)
    (max_results max_distance : Nat) : List CharString :=
  if query.isEmpty = true then []
  else (by_distance dict_words query max_distance).take max_results

/-- The backend state of `harper-ls` (`src/harper-ls/src/backend.rs`)
restricted to the fields the linter-construction path reads: the curated
global dictionary and the per-file identifier dictionaries; `files` is the
document map.  The LSP client handle and the mutexes guarding the maps are
protocol plumbing outside the linter model. -/
structure Backend where
  global_dictionary : Dict
  files : List (String × Document)
  ident_dicts : List (String × Dict)

/-- First-match association-list lookup (the embedded `HashMap<Url, _>`). -/
def lookup_assoc {α : Type} : List (String × α) → String → Option α
  | [], _ => none
  | (k, v) :: rest, w => if k = w then some v else lookup_assoc rest w

/-- Modelled from the spec: `MergedDictionary` membership is any-of over its
members.  `Backend::create_linter` merges the global dictionary with the
file's identifier dictionary when one exists. -/
def backend_dictionary (b : Backend) (url : String) : Dict :=
  fun w =>
    b.global_dictionary w ||
      (match lookup_assoc b.ident_dicts url with
       | some d => d w
       | none => false)

/-- `Backend::create_linter`, keeping the spell-check member of the lint set.
Modelled from the spec where the source is not provided:
`LintSet::new().with_standard(dictionary)` builds the standard linters fresh,
so the spell-check linter starts from `SpellCheck::new` with an empty cache. -/
def create_linter (b : Backend) (url : String) : SpellCheck :=
  SpellCheck.new (backend_dictionary b url)

/-- `Backend::generate_diagnostics` restricted to the spell lints: look up the
document; with no document return nothing, otherwise build a linter with
`create_linter` and run it.  (`lints_to_diagnostics` is protocol conversion
outside the model; `engine_of` supplies the suggestion engine for a given
merged dictionary.) -/
def generate_diagnostics (engine_of : Dict → SuggestionEngine) (cm : CaseMap) (b : Backend)
    (url : String) : List Lint :=
  match lookup_assoc b.files url with
  | none => []
  | some document =>
    (SpellCheck.lint (engine_of (backend_dictionary b url)) cm (create_linter b url)
      document).1

/-! ### Concrete fixtures

Small concrete documents, dictionaries and engines used to evaluate the
definitions on closed inputs. -/

/-- An engine that never has a suggestion. -/
def engine_empty : SuggestionEngine := fun _ _ _ => []

/-- A dictionary containing exactly the word `hello`. -/
def dict_hello : Dict := fun w => decide (w = ['h', 'e', 'l', 'l', 'o'])

/-- The reference engine over the one-word list `hello`. -/
def engine_hello : SuggestionEngine :=
  suggest_correct_spelling [['h', 'e', 'l', 'l', 'o']]

/-- A document whose single token is the word `hello`, all of it in the
dictionary. -/
def doc_hello : Document :=
  { content := ['h', 'e', 'l', 'l', 'o'],
    tokens := [{ kind := TokenKind.word, span := { start := 0, stop := 5 } }] }

/-- A document whose single token is the misspelled word `helo`. -/
def doc_helo : Document :=
  { content := ['h', 'e', 'l', 'o'],
    tokens := [{ kind := TokenKind.word, span := { start := 0, stop := 4 } }] }

/-- The markdown scenario document `[link]target`: open bracket, unlintable
`link`, close bracket, word `target`. -/
def doc_bracket : Document :=
  { content := ['[', 'l', 'i', 'n', 'k', ']', 't', 'a', 'r', 'g', 'e', 't'],
    tokens :=
      [{ kind := TokenKind.punctuation Punctuation.openBracket, span := { start := 0, stop := 1 } },
       { kind := TokenKind.unlintable, span := { start := 1, stop := 5 } },
       { kind := TokenKind.punctuation Punctuation.closeBracket, span := { start := 5, stop := 6 } },
       { kind := TokenKind.word, span := { start := 6, stop := 12 } }] }

/-- The word token of `doc_bracket`. -/
def tok_target : Token :=
  { kind := TokenKind.word, span := { start := 6, stop := 12 } }

/-- The open-bracket token of `doc_bracket`. -/
def tok_open : Token :=
  { kind := TokenKind.punctuation Punctuation.openBracket, span := { start := 0, stop := 1 } }

/-- The unlintable token of `doc_bracket`. -/
def tok_link : Token :=
  { kind := TokenKind.unlintable, span := { start := 1, stop := 5 } }

/-- The close-bracket token of `doc_bracket`. -/
def tok_close : Token :=
  { kind := TokenKind.punctuation Punctuation.closeBracket, span := { start := 5, stop := 6 } }

/-- The word token of `doc_helo`. -/
def tok_helo : Token :=
  { kind := TokenKind.word, span := { start := 0, stop := 4 } }

/-- The lint produced for `doc_helo` against the `hello` dictionary. -/
def lint_helo : Lint :=
  { span := { start := 0, stop := 4 },
    lint_kind := LintKind.Spelling,
    suggestions := [Suggestion.ReplaceWith ['h', 'e', 'l', 'l', 'o']],
    message := mkMessage ['h', 'e', 'l', 'o'],
    priority := 63 }

/-- The word token of `doc_qx`. -/
def tok_qx : Token :=
  { kind := TokenKind.word, span := { start := 0, stop := 2 } }

/-- The lint produced for `doc_qx` against the `_x` dictionary. -/
def lint_qx : Lint :=
  { span := { start := 0, stop := 2 },
    lint_kind := LintKind.Spelling,
    suggestions := [Suggestion.ReplaceWith ['_', 'x']],
    message := mkMessage ['Q', 'x'],
    priority := 63 }

/-- A dictionary containing exactly the fused probe `link]target`. -/
def dict_probe : Dict :=
  fun w => decide (w = ['l', 'i', 'n', 'k', ']', 't', 'a', 'r', 'g', 'e', 't'])

/-- A dictionary with no members. -/
def dict_none : Dict := fun _ => false

/-- A dictionary containing exactly the word `_x` (an identifier-style entry
whose first character has no uppercase form). -/
def dict_underscore : Dict := fun w => decide (w = ['_', 'x'])

/-- The reference engine over the one-word list `_x`. -/
def engine_underscore : SuggestionEngine :=
  suggest_correct_spelling [['_', 'x']]

/-- A document whose single token is the capitalized misspelled word `Qx`. -/
def doc_qx : Document :=
  { content := ['Q', 'x'],
    tokens := [{ kind := TokenKind.word, span := { start := 0, stop := 2 } }] }

/-- A document with two empty word tokens at the same position (allowed by the
well-formedness invariant, which permits empty spans). -/
def doc_empty_words : Document :=
  { content := [],
    tokens := [{ kind := TokenKind.word, span := { start := 0, stop := 0 } },
               { kind := TokenKind.word, span := { start := 0, stop := 0 } }] }

/-- Strict ascent of lint start positions (the ordering relation of the
claimed output ordering). -/
def span_start_lt (a b : Lint) : Prop := a.span.start < b.span.start

/-- The lint produced for each empty word token of `doc_empty_words`. -/
def lint_empty_word : Lint :=
  { span := { start := 0, stop := 0 },
    lint_kind := LintKind.Spelling,
    suggestions := [],
    message := mkMessage [],
    priority := 63 }

/-- A concrete backend fixture holding one Markdown file. -/
def backend_ex : Backend :=
  { global_dictionary := dict_hello,
    files := [("file.md", doc_helo)],
    ident_dicts := [] }

/-- A constant engine assignment for the backend fixture. -/
def engine_of_const : Dict → SuggestionEngine := fun _ => engine_hello

/-- Modelled from the spec: the case-map instance used by the concrete
fixtures.  Every character occurring in a fixture is ASCII, and on ASCII
`Char.isUpper` and `Char.toUpper` agree with the Unicode `is_uppercase`
predicate and with the first scalar of the Unicode uppercase mapping
(uncased ASCII characters such as the underscore are their own uppercase
mapping and are not uppercase, in Unicode exactly as here). -/
def case_map_ascii : CaseMap :=
  { is_uppercase := Char.isUpper, to_uppercase_first := Char.toUpper }

/-- One word cache extends another: every association present in the first is
present (with the same value) in the second. -/
def sub_cache (m m' : List (CharString × List CharString)) : Prop :=
  ∀ w v, lookup_cache m w = some v → lookup_cache m' w = some v

/-- The relationship between an emitted lint and the word token it was
emitted for: the lint ends where the token ends, has the Spelling kind,
priority 63, at most 3 suggestions all of the `ReplaceWith` form, the message
built from the content of its own span, and starts either at the token's
start or (for a fused lint) at the start of the open bracket three tokens
back. -/
def emitted_from (document : Document) (i : Nat) (tok : Token) (l : Lint) : Prop :=
  l.span.stop = tok.span.stop ∧
  l.lint_kind = LintKind.Spelling ∧
  l.priority = 63 ∧
  l.suggestions.length ≤ 3 ∧
  (∀ g ∈ l.suggestions, ∃ w, g = Suggestion.ReplaceWith w) ∧
  l.message = mkMessage (document.get_span_content l.span) ∧
  (l.span.start = tok.span.start ∨
    (3 ≤ i ∧ ∃ punct_1 unlintable punct_2,
      document.tokens[i - 3]? = some punct_1 ∧
      document.tokens[i - 2]? = some unlintable ∧
      document.tokens[i - 1]? = some punct_2 ∧
      punct_1.kind.is_open_square = true ∧
      unlintable.kind.is_unlintable = true ∧
      punct_2.kind.is_close_square = true ∧
      l.span.start = punct_1.span.start))

/-! ### Helper lemmas -/

theorem is_open_square_eq_false_of_is_word {k : TokenKind} (h : k.is_word = true) :
    k.is_open_square = false := by
  cases k <;> simp_all [TokenKind.is_word, TokenKind.is_open_square]

theorem is_close_square_eq_false_of_is_word {k : TokenKind} (h : k.is_word = true) :
    k.is_close_square = false := by
  cases k <;> simp_all [TokenKind.is_word, TokenKind.is_close_square]

theorem is_unlintable_eq_false_of_is_word {k : TokenKind} (h : k.is_word = true) :
    k.is_unlintable = false := by
  cases k <;> simp_all [TokenKind.is_word, TokenKind.is_unlintable]

theorem lookup_cache_append_left {m : List (CharString × List CharString)} {w : CharString}
    {v : List CharString} (h : lookup_cache m w = some v) (m₂ : List (CharString × List CharString)) :
    lookup_cache (m ++ m₂) w = some v := by
  induction m with
  | nil => simp [lookup_cache] at h
  | cons p rest ih =>
    obtain ⟨k, val⟩ := p
    by_cases hk : k = w
    · simp_all [lookup_cache]
    · simp_all [lookup_cache]

theorem lookup_cache_eq_none_iff {m : List (CharString × List CharString)} {w : CharString} :
    lookup_cache m w = none ↔ w ∉ m.map Prod.fst := by
  induction m with
  | nil => simp [lookup_cache]
  | cons p rest ih =>
    obtain ⟨k, val⟩ := p
    by_cases hk : k = w
    · subst hk; simp [lookup_cache]
    · rw [List.map_cons, List.mem_cons]
      simp only [lookup_cache, if_neg hk, ih]
      constructor
      · intro h hmem
        rcases hmem with h1 | h2
        · exact hk h1.symm
        · exact h h2
      · intro h h2
        exact h (Or.inr h2)

theorem lookup_cache_append_self {m : List (CharString × List CharString)} {w : CharString}
    (v : List CharString) (h : lookup_cache m w = none) :
    lookup_cache (m ++ [(w, v)]) w = some v := by
  induction m with
  | nil => simp [lookup_cache]
  | cons p rest ih =>
    obtain ⟨k, val⟩ := p
    by_cases hk : k = w
    · simp [lookup_cache, hk] at h
    · simp [lookup_cache, hk] at h ⊢
      exact ih h

theorem back_off_loop_step (suggest : SuggestionEngine) (word : CharString)
    (l : List CharString) (d : Nat) (hd : d < 5) :
    back_off_loop suggest word l d =
      if l.isEmpty = true then
        ((back_off_loop suggest word (suggest word 100 d) (d + 1)).1,
         (back_off_loop suggest word (suggest word 100 d) (d + 1)).2 + 1)
      else (l, 0) := by
  unfold back_off_loop
  have hgas : 5 - d = (5 - (d + 1)) + 1 := by omega
  rw [hgas]
  by_cases hl : l.isEmpty = true
  · rw [back_off_go, if_pos ⟨hl, hd⟩, if_pos hl]
  · rw [back_off_go, if_neg fun h => hl h.1, if_neg hl]

theorem back_off_loop_stop (suggest : SuggestionEngine) (word : CharString)
    (l : List CharString) : back_off_loop suggest word l 5 = (l, 0) := by
  unfold back_off_loop
  norm_num
  rw [back_off_go]

theorem back_off_loop_spec (suggest : SuggestionEngine) (word : CharString) :
    back_off_loop suggest word [] 2 =
      if (suggest word 100 2).isEmpty = true then
        (if (suggest word 100 3).isEmpty = true then (suggest word 100 4, 3)
         else (suggest word 100 3, 2))
      else (suggest word 100 2, 1) := by
  have h4 : ∀ l : List CharString, back_off_loop suggest word l 4 =
      if l.isEmpty = true then (suggest word 100 4, 1) else (l, 0) := by
    intro l
    rw [back_off_loop_step suggest word l 4 (by omega)]
    by_cases hl : l.isEmpty = true <;> simp [hl, back_off_loop_stop]
  have h3 : ∀ l : List CharString, back_off_loop suggest word l 3 =
      if l.isEmpty = true then
        (if (suggest word 100 3).isEmpty = true then (suggest word 100 4, 2)
         else (suggest word 100 3, 1))
      else (l, 0) := by
    intro l
    rw [back_off_loop_step suggest word l 3 (by omega), h4]
    by_cases hl : l.isEmpty = true <;>
      by_cases h3' : (suggest word 100 3).isEmpty = true <;> simp [hl, h3']
  rw [back_off_loop_step suggest word [] 2 (by omega), h3]
  by_cases h2 : (suggest word 100 2).isEmpty = true <;>
    by_cases h3' : (suggest word 100 3).isEmpty = true <;> simp [h2, h3']

theorem cached_suggest_hit {suggest : SuggestionEngine} {s : SpellCheck} {w : CharString}
    {v : List CharString} (h : lookup_cache s.word_cache w = some v) :
    cached_suggest_correct_spelling suggest s w = (v, s, 0) := by
  simp [cached_suggest_correct_spelling, h]

theorem cached_suggest_miss {suggest : SuggestionEngine} {s : SpellCheck} {w : CharString}
    (h : lookup_cache s.word_cache w = none) :
    cached_suggest_correct_spelling suggest s w =
      ((back_off_loop suggest w [] 2).1,
       { s with word_cache := s.word_cache ++ [(w, (back_off_loop suggest w [] 2).1)] },
       (back_off_loop suggest w [] 2).2) := by
  simp [cached_suggest_correct_spelling, h]

theorem cached_suggest_dictionary (suggest : SuggestionEngine) (s : SpellCheck) (w : CharString) :
    (cached_suggest_correct_spelling suggest s w).2.1.dictionary = s.dictionary := by
  cases h : lookup_cache s.word_cache w
  · rw [cached_suggest_miss h]
  · rw [cached_suggest_hit h]

theorem cached_suggest_lookup_self {suggest : SuggestionEngine} {s : SpellCheck} {w : CharString} :
    lookup_cache (cached_suggest_correct_spelling suggest s w).2.1.word_cache w =
      some (cached_suggest_correct_spelling suggest s w).1 := by
  cases h : lookup_cache s.word_cache w
  · rw [cached_suggest_miss h]
    exact lookup_cache_append_self _ h
  · rw [cached_suggest_hit h]
    exact h

theorem cached_suggest_mono (suggest : SuggestionEngine) (s : SpellCheck) (w : CharString) :
    sub_cache s.word_cache (cached_suggest_correct_spelling suggest s w).2.1.word_cache := by
  intro w' v' hv'
  cases h : lookup_cache s.word_cache w
  · rw [cached_suggest_miss h]
    exact lookup_cache_append_left hv' _
  · rw [cached_suggest_hit h]
    exact hv'

theorem emit_lint_eq (suggest : SuggestionEngine) (cm : CaseMap) (document : Document) (s : SpellCheck)
    (word : Token) (word_chars : CharString) :
    emit_lint suggest cm document s word word_chars =
      (some { span := word.span,
              lint_kind := LintKind.Spelling,
              suggestions :=
                (capitalize_like cm word_chars
                  ((cached_suggest_correct_spelling suggest s word_chars).1.take 3)).map
                  Suggestion.ReplaceWith,
              message := mkMessage (document.get_span_content word.span),
              priority := 63 },
       (cached_suggest_correct_spelling suggest s word_chars).2.1,
       (cached_suggest_correct_spelling suggest s word_chars).2.2) := rfl

theorem process_word_of_contains {suggest : SuggestionEngine} {cm : CaseMap} {document : Document}
    {s : SpellCheck} {idx : Nat} {tok : Token}
    (h : s.dictionary (document.get_span_content tok.span) = true) :
    process_word suggest cm document s idx tok = (none, s, 0) := by
  simp [process_word, h]

theorem process_word_of_probe {suggest : SuggestionEngine} {cm : CaseMap} {document : Document}
    {s : SpellCheck} {idx : Nat} {tok new_token : Token} {us : Span}
    (hmiss : s.dictionary (document.get_span_content tok.span) = false)
    (hcomb : potentially_combine_unlintable_markdown_tokens document idx = some (new_token, us))
    (hprobe : s.dictionary
      (document.get_span_content (us.push_by 1) ++ document.get_span_content tok.span) = true) :
    process_word suggest cm document s idx tok = (none, s, 0) := by
  simp [process_word, hmiss, hcomb, hprobe]

theorem process_word_of_fused {suggest : SuggestionEngine} {cm : CaseMap} {document : Document}
    {s : SpellCheck} {idx : Nat} {tok new_token : Token} {us : Span}
    (hmiss : s.dictionary (document.get_span_content tok.span) = false)
    (hcomb : potentially_combine_unlintable_markdown_tokens document idx = some (new_token, us))
    (hprobe : s.dictionary
      (document.get_span_content (us.push_by 1) ++ document.get_span_content tok.span) = false) :
    process_word suggest cm document s idx tok =
      emit_lint suggest cm document s new_token (document.get_span_content tok.span) := by
  simp [process_word, hmiss, hcomb, hprobe]

theorem process_word_of_no_comb {suggest : SuggestionEngine} {cm : CaseMap} {document : Document}
    {s : SpellCheck} {idx : Nat} {tok : Token}
    (hmiss : s.dictionary (document.get_span_content tok.span) = false)
    (hcomb : potentially_combine_unlintable_markdown_tokens document idx = none) :
    process_word suggest cm document s idx tok =
      emit_lint suggest cm document s tok (document.get_span_content tok.span) := by
  simp [process_word, hmiss, hcomb]

theorem capitalize_like_length (cm : CaseMap) (word_chars : CharString)
    (possibilities : List CharString) :
    (capitalize_like cm word_chars possibilities).length = possibilities.length := by
  unfold capitalize_like
  cases word_chars.head? with
  | none => rfl
  | some c => by_cases h : cm.is_uppercase c = true <;> simp [h]

theorem bool_eq_false {b : Bool} (h : ¬b = true) : b = false := by
  cases b with
  | false => rfl
  | true => exact absurd rfl h

theorem potentially_combine_eq_some_iff {document : Document} {idx : Nat} {t : Token} {sp : Span} :
    potentially_combine_unlintable_markdown_tokens document idx = some (t, sp) ↔
      ∃ missing_token punct_1 unlintable punct_2,
        document.tokens[idx]? = some missing_token ∧
        3 ≤ idx ∧
        document.tokens[idx - 3]? = some punct_1 ∧
        document.tokens[idx - 2]? = some unlintable ∧
        document.tokens[idx - 1]? = some punct_2 ∧
        punct_1.kind.is_open_square = true ∧
        punct_2.kind.is_close_square = true ∧
        unlintable.kind.is_unlintable = true ∧
        t = { missing_token with
                span := { start := punct_1.span.start, stop := missing_token.span.stop } } ∧
        sp = unlintable.span := by
  constructor
  · intro h
    unfold potentially_combine_unlintable_markdown_tokens at h
    split at h
    · simp at h
    · rename_i missing_token hmt
      rw [Document.get_token] at hmt
      split at h
      · rename_i hidx
        split at h
        · rename_i punct_1 unlintable punct_2 h3 h2 h1
          split at h
          · rename_i hoc
            split at h
            · rename_i hu
              simp only [Option.some.injEq, Prod.mk.injEq] at h
              exact ⟨missing_token, punct_1, unlintable, punct_2, hmt, hidx, h3, h2, h1,
                hoc.1, hoc.2, hu, h.1.symm, h.2.symm⟩
            · simp at h
          · simp at h
        · simp at h
      · simp at h
  · rintro ⟨mt, p1, u, p2, hmt, hidx, h3, h2, h1, ho, hc, hu, ht, hsp⟩
    subst ht hsp
    simp [potentially_combine_unlintable_markdown_tokens, Document.get_token,
      hmt, hidx, h3, h2, h1, ho, hc, hu]

theorem mem_enum_getElem {α : Type} {l : List α} {p : Nat × α} (h : p ∈ l.enum) :
    l[p.1]? = some p.2 := by
  obtain ⟨i, a⟩ := p
  have h' : (i, a) ∈ List.enumFrom 0 l := h
  obtain ⟨-, h2, h3⟩ := List.mem_enumFrom h'
  rw [List.getElem?_eq_some]
  exact ⟨by omega, h3.symm⟩

theorem enumFrom_pairwise {α : Type} (l : List α) :
    ∀ n : Nat, (List.enumFrom n l).Pairwise fun p q => p.1 < q.1 := by
  induction l with
  | nil => intro n; simp
  | cons a rest ih =>
    intro n
    rw [List.enumFrom_cons, List.pairwise_cons]
    refine ⟨?_, ih (n + 1)⟩
    intro q hq
    obtain ⟨j, b⟩ := q
    obtain ⟨h1, -, -⟩ := List.mem_enumFrom hq
    simpa using by omega

theorem enum_pairwise {α : Type} (l : List α) :
    l.enum.Pairwise fun p q => p.1 < q.1 :=
  enumFrom_pairwise l 0

theorem well_formed_stop_le_start {document : Document} (hwf : well_formed document)
    {i j : Nat} {a b : Token} (hij : i < j)
    (ha : document.tokens[i]? = some a) (hb : document.tokens[j]? = some b) :
    a.span.stop ≤ b.span.start := by
  rw [List.getElem?_eq_some] at ha hb
  obtain ⟨hi, ha⟩ := ha
  obtain ⟨hj, hb⟩ := hb
  subst ha hb
  exact List.pairwise_iff_getElem.mp hwf.2 i j hi hj hij

theorem well_formed_token_bounds {document : Document} (hwf : well_formed document)
    {i : Nat} {a : Token} (ha : document.tokens[i]? = some a) :
    a.span.start ≤ a.span.stop ∧ a.span.stop ≤ document.content.length :=
  hwf.1 a (List.getElem?_mem ha)

theorem get_span_content_decompose (document : Document) {a c d : Nat}
    (hac : a ≤ c) (hcd : c ≤ d) :
    document.get_span_content { start := a, stop := d } =
      document.get_span_content { start := a, stop := c } ++
        document.get_span_content { start := c, stop := d } := by
  unfold Document.get_span_content
  simp only
  have hsum : d - a = (c - a) + (d - c) := by omega
  rw [hsum, List.take_add, List.drop_drop]
  have hc' : a + (c - a) = c := by omega
  rw [hc']

theorem process_word_emits {suggest : SuggestionEngine} {cm : CaseMap} {document : Document} {s : SpellCheck}
    {i : Nat} {tok : Token} {l : Lint}
    (htok : document.tokens[i]? = some tok)
    (h : (process_word suggest cm document s i tok).1 = some l) :
    s.dictionary (document.get_span_content tok.span) = false ∧
      emitted_from document i tok l := by
  by_cases hdict : s.dictionary (document.get_span_content tok.span) = true
  · rw [process_word_of_contains hdict] at h
    simp at h
  · have hmiss := bool_eq_false hdict
    refine ⟨hmiss, ?_⟩
    cases hcomb : potentially_combine_unlintable_markdown_tokens document i with
    | none =>
      rw [process_word_of_no_comb hmiss hcomb, emit_lint_eq] at h
      simp only [Option.some.injEq] at h
      subst h
      refine ⟨rfl, rfl, rfl, ?_, ?_, rfl, Or.inl rfl⟩
      · simp only [List.length_map, capitalize_like_length]
        exact le_trans (List.length_take_le 3 _) (le_refl 3)
      · intro g hg
        simp only [List.mem_map] at hg
        obtain ⟨w, -, hw⟩ := hg
        exact ⟨w, hw.symm⟩
    | some pair =>
      obtain ⟨nt, us⟩ := pair
      by_cases hprobe : s.dictionary
          (document.get_span_content (us.push_by 1) ++
            document.get_span_content tok.span) = true
      · rw [process_word_of_probe hmiss hcomb hprobe] at h
        simp at h
      · rw [process_word_of_fused hmiss hcomb (bool_eq_false hprobe), emit_lint_eq] at h
        simp only [Option.some.injEq] at h
        subst h
        obtain ⟨mt, p1, u, p2, hmt, hidx, h3, h2, h1, ho, hc, hu, hnt, -⟩ :=
          potentially_combine_eq_some_iff.mp hcomb
        have hmteq : mt = tok := by
          rw [htok] at hmt
          exact (Option.some.inj hmt).symm
        subst hmteq hnt
        refine ⟨rfl, rfl, rfl, ?_, ?_, rfl, Or.inr ⟨hidx, p1, u, p2, h3, h2, h1, ho, hu, hc, rfl⟩⟩
        · simp only [List.length_map, capitalize_like_length]
          exact le_trans (List.length_take_le 3 _) (le_refl 3)
        · intro g hg
          simp only [List.mem_map] at hg
          obtain ⟨w, -, hw⟩ := hg
          exact ⟨w, hw.symm⟩

theorem process_word_dictionary (suggest : SuggestionEngine) (cm : CaseMap) (document : Document)
    (s : SpellCheck) (idx : Nat) (tok : Token) :
    (process_word suggest cm document s idx tok).2.1.dictionary = s.dictionary := by
  by_cases hdict : s.dictionary (document.get_span_content tok.span) = true
  · rw [process_word_of_contains hdict]
  · have hmiss := bool_eq_false hdict
    cases hcomb : potentially_combine_unlintable_markdown_tokens document idx with
    | none =>
      rw [process_word_of_no_comb hmiss hcomb, emit_lint_eq]
      exact cached_suggest_dictionary suggest s _
    | some pair =>
      obtain ⟨nt, us⟩ := pair
      by_cases hprobe : s.dictionary
          (document.get_span_content (us.push_by 1) ++
            document.get_span_content tok.span) = true
      · rw [process_word_of_probe hmiss hcomb hprobe]
      · rw [process_word_of_fused hmiss hcomb (bool_eq_false hprobe), emit_lint_eq]
        exact cached_suggest_dictionary suggest s _

theorem sub_cache_refl (m : List (CharString × List CharString)) : sub_cache m m :=
  fun _ _ h => h

theorem sub_cache_trans {a b c : List (CharString × List CharString)}
    (h1 : sub_cache a b) (h2 : sub_cache b c) : sub_cache a c :=
  fun w v hv => h2 w v (h1 w v hv)

theorem process_word_mono (suggest : SuggestionEngine) (cm : CaseMap) (document : Document)
    (s : SpellCheck) (idx : Nat) (tok : Token) :
    sub_cache s.word_cache (process_word suggest cm document s idx tok).2.1.word_cache := by
  by_cases hdict : s.dictionary (document.get_span_content tok.span) = true
  · rw [process_word_of_contains hdict]
    exact sub_cache_refl _
  · have hmiss := bool_eq_false hdict
    cases hcomb : potentially_combine_unlintable_markdown_tokens document idx with
    | none =>
      rw [process_word_of_no_comb hmiss hcomb, emit_lint_eq]
      exact cached_suggest_mono suggest s _
    | some pair =>
      obtain ⟨nt, us⟩ := pair
      by_cases hprobe : s.dictionary
          (document.get_span_content (us.push_by 1) ++
            document.get_span_content tok.span) = true
      · rw [process_word_of_probe hmiss hcomb hprobe]
        exact sub_cache_refl _
      · rw [process_word_of_fused hmiss hcomb (bool_eq_false hprobe), emit_lint_eq]
        exact cached_suggest_mono suggest s _

theorem lintFrom_dictionary (suggest : SuggestionEngine) (cm : CaseMap) (document : Document) :
    ∀ (ts : List (Nat × Token)) (s : SpellCheck),
      (lintFrom suggest cm document ts s).2.1.dictionary = s.dictionary := by
  intro ts
  induction ts with
  | nil => intro s; rfl
  | cons p rest ih =>
    intro s
    obtain ⟨i, tok⟩ := p
    by_cases hw : tok.kind.is_word = true
    · simp only [lintFrom, if_pos hw]
      rw [ih, process_word_dictionary]
    · simp only [lintFrom, if_neg hw]
      exact ih s

theorem is_word_eq_false_of_is_open_square {k : TokenKind} (h : k.is_open_square = true) :
    k.is_word = false := by
  cases k <;> simp_all [TokenKind.is_word, TokenKind.is_open_square]

theorem is_word_eq_false_of_is_close_square {k : TokenKind} (h : k.is_close_square = true) :
    k.is_word = false := by
  cases k <;> simp_all [TokenKind.is_word, TokenKind.is_close_square]

theorem is_word_eq_false_of_is_unlintable {k : TokenKind} (h : k.is_unlintable = true) :
    k.is_word = false := by
  cases k <;> simp_all [TokenKind.is_word, TokenKind.is_unlintable]

theorem index_ne_of_kinds {document : Document} {i j : Nat} {tok other : Token}
    (htok : document.tokens[i]? = some tok) (hother : document.tokens[j]? = some other)
    (hw : tok.kind.is_word = true) (hother_k : other.kind.is_word = false) : i ≠ j := by
  intro he
  subst he
  rw [htok] at hother
  have hto : tok = other := Option.some.inj hother
  rw [← hto] at hother_k
  rw [hw] at hother_k
  exact absurd hother_k (by simp)

theorem lintFrom_mono (suggest : SuggestionEngine) (cm : CaseMap) (document : Document) :
    ∀ (ts : List (Nat × Token)) (s : SpellCheck),
      sub_cache s.word_cache (lintFrom suggest cm document ts s).2.1.word_cache := by
  intro ts
  induction ts with
  | nil => intro s; exact sub_cache_refl _
  | cons p rest ih =>
    intro s
    obtain ⟨i, tok⟩ := p
    by_cases hw : tok.kind.is_word = true
    · simp only [lintFrom, if_pos hw]
      exact sub_cache_trans (process_word_mono suggest cm document s i tok) (ih _)
    · simp only [lintFrom, if_neg hw]
      exact ih s

theorem lintFrom_sound (suggest : SuggestionEngine) (cm : CaseMap) (document : Document) (d : Dict)
    (hwf : well_formed document) :
    ∀ (ts : List (Nat × Token)) (s : SpellCheck),
      (∀ p ∈ ts, document.tokens[p.1]? = some p.2) →
      ts.Pairwise (fun p q => p.1 < q.1) →
      s.dictionary = d →
      (∀ l ∈ (lintFrom suggest cm document ts s).1,
        ∃ i tok, (i, tok) ∈ ts ∧ tok.kind.is_word = true ∧
          d (document.get_span_content tok.span) = false ∧ emitted_from document i tok l) ∧
      ((lintFrom suggest cm document ts s).1.Pairwise fun a b => a.span.stop ≤ b.span.start) := by
  intro ts
  induction ts with
  | nil =>
    intro s _ _ _
    simp [lintFrom]
  | cons p rest ih =>
    intro s hget hasc hd
    obtain ⟨i, tok⟩ := p
    have htok : document.tokens[i]? = some tok := hget (i, tok) (List.mem_cons_self _ _)
    have hget' : ∀ q ∈ rest, document.tokens[q.1]? = some q.2 :=
      fun q hq => hget q (List.mem_cons_of_mem _ hq)
    have hasc' := (List.pairwise_cons.mp hasc).2
    have hlt : ∀ q ∈ rest, i < q.1 := (List.pairwise_cons.mp hasc).1
    by_cases hw : tok.kind.is_word = true
    · have hd' : (process_word suggest cm document s i tok).2.1.dictionary = d := by
        rw [process_word_dictionary]; exact hd
      obtain ⟨ihm, ihp⟩ := ih (process_word suggest cm document s i tok).2.1 hget' hasc' hd'
      simp only [lintFrom, if_pos hw]
      cases hpw : (process_word suggest cm document s i tok).1 with
      | none =>
        simp only [Option.toList_none, List.nil_append]
        refine ⟨?_, ihp⟩
        intro l hl
        obtain ⟨i', tok', hmem', hw', hmiss', hef'⟩ := ihm l hl
        exact ⟨i', tok', List.mem_cons_of_mem _ hmem', hw', hmiss', hef'⟩
      | some l =>
        simp only [Option.toList_some, List.cons_append, List.nil_append]
        have hemit := process_word_emits htok hpw
        have hstop : l.span.stop = tok.span.stop := hemit.2.1
        constructor
        · intro l' hl'
          rcases List.mem_cons.mp hl' with hl0 | hl1
          · subst hl0
            exact ⟨i, tok, List.mem_cons_self _ _, hw, hd ▸ hemit.1, hemit.2⟩
          · obtain ⟨i', tok', hmem', hw', hmiss', hef'⟩ := ihm l' hl1
            exact ⟨i', tok', List.mem_cons_of_mem _ hmem', hw', hmiss', hef'⟩
        · rw [List.pairwise_cons]
          refine ⟨?_, ihp⟩
          intro l' hl'
          obtain ⟨i', tok', hmem', hw', hmiss', hef'⟩ := ihm l' hl'
          have hi' : i < i' := hlt (i', tok') hmem'
          have htok' : document.tokens[i']? = some tok' := hget' (i', tok') hmem'
          rcases hef'.2.2.2.2.2.2 with hstart' |
            ⟨hidx', p1', u', p2', hg3, hg2, hg1, ho', hu', hc', hstart'⟩
          · rw [hstop, hstart']
            exact well_formed_stop_le_start hwf hi' htok htok'
          · rw [hstop, hstart']
            have hne3 : i ≠ i' - 3 :=
              index_ne_of_kinds htok hg3 hw (is_word_eq_false_of_is_open_square ho')
            have hne2 : i ≠ i' - 2 :=
              index_ne_of_kinds htok hg2 hw (is_word_eq_false_of_is_unlintable hu')
            have hne1 : i ≠ i' - 1 :=
              index_ne_of_kinds htok hg1 hw (is_word_eq_false_of_is_close_square hc')
            have hlt3 : i < i' - 3 := by omega
            exact well_formed_stop_le_start hwf hlt3 htok hg3
    · simp only [lintFrom, if_neg hw]
      obtain ⟨ihm, ihp⟩ := ih s hget' hasc' hd
      refine ⟨?_, ihp⟩
      intro l hl
      obtain ⟨i', tok', hmem', hw', hmiss', hef'⟩ := ihm l hl
      exact ⟨i', tok', List.mem_cons_of_mem _ hmem', hw', hmiss', hef'⟩

theorem cached_suggest_replay {suggest : SuggestionEngine} {s : SpellCheck} {w : CharString}
    {τ : SpellCheck}
    (hsub : sub_cache (cached_suggest_correct_spelling suggest s w).2.1.word_cache τ.word_cache) :
    cached_suggest_correct_spelling suggest τ w =
      ((cached_suggest_correct_spelling suggest s w).1, τ, 0) := by
  have hlookup := @cached_suggest_lookup_self suggest s w
  exact cached_suggest_hit (hsub w _ hlookup)

theorem process_word_replay {suggest : SuggestionEngine} {cm : CaseMap} {document : Document}
    {s τ : SpellCheck} {i : Nat} {tok : Token}
    (hdict : τ.dictionary = s.dictionary)
    (hsub : sub_cache (process_word suggest cm document s i tok).2.1.word_cache τ.word_cache) :
    process_word suggest cm document τ i tok = ((process_word suggest cm document s i tok).1, τ, 0) := by
  by_cases hd : s.dictionary (document.get_span_content tok.span) = true
  · rw [process_word_of_contains (show τ.dictionary (document.get_span_content tok.span) = true by
      rw [hdict]; exact hd), process_word_of_contains hd]
  · have hmiss := bool_eq_false hd
    have hmissτ : τ.dictionary (document.get_span_content tok.span) = false := by
      rw [hdict]; exact hmiss
    cases hcomb : potentially_combine_unlintable_markdown_tokens document i with
    | none =>
      rw [process_word_of_no_comb hmiss hcomb] at hsub ⊢
      rw [process_word_of_no_comb hmissτ hcomb]
      rw [emit_lint_eq] at hsub ⊢
      rw [emit_lint_eq]
      rw [@cached_suggest_replay suggest s _ τ hsub]
    | some pair =>
      obtain ⟨nt, us⟩ := pair
      by_cases hprobe : s.dictionary
          (document.get_span_content (us.push_by 1) ++
            document.get_span_content tok.span) = true
      · rw [process_word_of_probe hmissτ hcomb (show τ.dictionary _ = true by
          rw [hdict]; exact hprobe), process_word_of_probe hmiss hcomb hprobe]
      · have hprobe' := bool_eq_false hprobe
        have hprobeτ : τ.dictionary
            (document.get_span_content (us.push_by 1) ++
              document.get_span_content tok.span) = false := by
          rw [hdict]; exact hprobe'
        rw [process_word_of_fused hmiss hcomb hprobe'] at hsub ⊢
        rw [process_word_of_fused hmissτ hcomb hprobeτ]
        rw [emit_lint_eq] at hsub ⊢
        rw [emit_lint_eq]
        rw [@cached_suggest_replay suggest s _ τ hsub]

theorem lintFrom_replay (suggest : SuggestionEngine) (cm : CaseMap) (document : Document) :
    ∀ (ts : List (Nat × Token)) (σ τ : SpellCheck),
      τ.dictionary = σ.dictionary →
      sub_cache (lintFrom suggest cm document ts σ).2.1.word_cache τ.word_cache →
      lintFrom suggest cm document ts τ = ((lintFrom suggest cm document ts σ).1, τ, 0) := by
  intro ts
  induction ts with
  | nil => intro σ τ _ _; rfl
  | cons p rest ih =>
    intro σ τ hdict hsub
    obtain ⟨i, tok⟩ := p
    by_cases hw : tok.kind.is_word = true
    · simp only [lintFrom, if_pos hw] at hsub ⊢
      have hsub1 : sub_cache (process_word suggest cm document σ i tok).2.1.word_cache
          τ.word_cache :=
        sub_cache_trans (lintFrom_mono suggest cm document rest _) hsub
      have hpw := @process_word_replay suggest cm document σ τ i tok hdict hsub1
      rw [hpw]
      have hdict' : τ.dictionary = (process_word suggest cm document σ i tok).2.1.dictionary := by
        rw [process_word_dictionary]; exact hdict
      have htail := ih (process_word suggest cm document σ i tok).2.1 τ hdict' hsub
      rw [htail]
      rfl
    · simp only [lintFrom, if_neg hw] at hsub ⊢
      exact ih σ τ hdict hsub

theorem lookup_cache_mem_keys {m : List (CharString × List CharString)} {w : CharString}
    {v : List CharString} (h : lookup_cache m w = some v) : w ∈ m.map Prod.fst := by
  by_contra hnot
  rw [← lookup_cache_eq_none_iff] at hnot
  rw [hnot] at h
  exact absurd h (by simp)

theorem cached_suggest_keys (suggest : SuggestionEngine) (s : SpellCheck) (w : CharString) :
    ∀ w', w' ∈ (cached_suggest_correct_spelling suggest s w).2.1.word_cache.map Prod.fst ↔
      (w' ∈ s.word_cache.map Prod.fst ∨ w' = w) := by
  intro w'
  cases h : lookup_cache s.word_cache w
  · rw [cached_suggest_miss h]
    simp only [List.map_append, List.map_cons, List.map_nil, List.mem_append, List.mem_cons]
    constructor
    · rintro (h1 | h2 | h3)
      · exact Or.inl h1
      · exact Or.inr h2
      · simp at h3
    · rintro (h1 | h2)
      · exact Or.inl h1
      · exact Or.inr (Or.inl h2)
  · rw [cached_suggest_hit h]
    constructor
    · exact Or.inl
    · rintro (h1 | h2)
      · exact h1
      · subst h2; exact lookup_cache_mem_keys h

theorem process_word_keys (suggest : SuggestionEngine) (cm : CaseMap) (document : Document) (s : SpellCheck)
    (i : Nat) (tok : Token) (hw : tok.kind.is_word = true) :
    ∀ w, w ∈ (process_word suggest cm document s i tok).2.1.word_cache.map Prod.fst ↔
      (w ∈ s.word_cache.map Prod.fst ∨
        (reaches_step_3 document s.dictionary i tok = true ∧
          document.get_span_content tok.span = w)) := by
  intro w
  by_cases hd : s.dictionary (document.get_span_content tok.span) = true
  · rw [process_word_of_contains hd]
    have hreach : reaches_step_3 document s.dictionary i tok = false := by
      simp [reaches_step_3, hd]
    simp [hreach]
  · have hmiss := bool_eq_false hd
    cases hcomb : potentially_combine_unlintable_markdown_tokens document i with
    | none =>
      have hreach : reaches_step_3 document s.dictionary i tok = true := by
        simp [reaches_step_3, hw, hmiss, hcomb]
      rw [process_word_of_no_comb hmiss hcomb, emit_lint_eq]
      rw [cached_suggest_keys]
      simp [hreach, eq_comm]
    | some pair =>
      obtain ⟨nt, us⟩ := pair
      by_cases hprobe : s.dictionary
          (document.get_span_content (us.push_by 1) ++
            document.get_span_content tok.span) = true
      · rw [process_word_of_probe hmiss hcomb hprobe]
        have hreach : reaches_step_3 document s.dictionary i tok = false := by
          simp [reaches_step_3, hcomb, hprobe]
        simp [hreach]
      · have hprobe' := bool_eq_false hprobe
        have hreach : reaches_step_3 document s.dictionary i tok = true := by
          simp [reaches_step_3, hw, hmiss, hcomb, hprobe']
        rw [process_word_of_fused hmiss hcomb hprobe', emit_lint_eq]
        rw [cached_suggest_keys]
        simp [hreach, eq_comm]

theorem reaches_step_3_eq_false_of_not_word {document : Document} {d : Dict} {i : Nat}
    {tok : Token} (hw : ¬tok.kind.is_word = true) :
    reaches_step_3 document d i tok = false := by
  simp [reaches_step_3, bool_eq_false hw]

theorem lintFrom_keys (suggest : SuggestionEngine) (cm : CaseMap) (document : Document) (d : Dict) :
    ∀ (ts : List (Nat × Token)) (s : SpellCheck), s.dictionary = d →
      ∀ w, w ∈ (lintFrom suggest cm document ts s).2.1.word_cache.map Prod.fst ↔
        (w ∈ s.word_cache.map Prod.fst ∨
          ∃ p ∈ ts, reaches_step_3 document d p.1 p.2 = true ∧
            document.get_span_content p.2.span = w) := by
  intro ts
  induction ts with
  | nil =>
    intro s _ w
    simp [lintFrom]
  | cons p rest ih =>
    intro s hd w
    obtain ⟨i, tok⟩ := p
    by_cases hw : tok.kind.is_word = true
    · simp only [lintFrom, if_pos hw]
      have hd' : (process_word suggest cm document s i tok).2.1.dictionary = d := by
        rw [process_word_dictionary]; exact hd
      rw [ih _ hd' w, process_word_keys suggest cm document s i tok hw w, hd]
      simp only [List.mem_cons]
      constructor
      · rintro ((h1 | h2) | ⟨q, hq, h3⟩)
        · exact Or.inl h1
        · exact Or.inr ⟨(i, tok), Or.inl rfl, h2⟩
        · exact Or.inr ⟨q, Or.inr hq, h3⟩
      · rintro (h1 | ⟨q, hq | hq, h3⟩)
        · exact Or.inl (Or.inl h1)
        · subst hq; exact Or.inl (Or.inr h3)
        · exact Or.inr ⟨q, hq, h3⟩
    · simp only [lintFrom, if_neg hw]
      rw [ih s hd w]
      simp only [List.mem_cons]
      constructor
      · rintro (h1 | ⟨q, hq, h3⟩)
        · exact Or.inl h1
        · exact Or.inr ⟨q, Or.inr hq, h3⟩
      · rintro (h1 | ⟨q, hq | hq, h3⟩)
        · exact Or.inl h1
        · subst hq
          rw [reaches_step_3_eq_false_of_not_word hw] at h3
          exact absurd h3.1 (by simp)
        · exact Or.inr ⟨q, hq, h3⟩

theorem keys_nodup_append {m : List (CharString × List CharString)} {w : CharString}
    (v : List CharString) (h : (m.map Prod.fst).Nodup) (hw : lookup_cache m w = none) :
    (((m ++ [(w, v)]).map Prod.fst)).Nodup := by
  have hnot : w ∉ m.map Prod.fst := lookup_cache_eq_none_iff.mp hw
  rw [List.map_append]
  refine List.Nodup.append h (List.nodup_singleton w) ?_
  intro a ha hb
  simp only [List.map_cons, List.map_nil, List.mem_singleton] at hb
  subst hb
  exact hnot ha

theorem cached_suggest_keys_nodup (suggest : SuggestionEngine) (s : SpellCheck) (w : CharString)
    (h : (s.word_cache.map Prod.fst).Nodup) :
    ((cached_suggest_correct_spelling suggest s w).2.1.word_cache.map Prod.fst).Nodup := by
  cases hl : lookup_cache s.word_cache w
  · rw [cached_suggest_miss hl]
    exact keys_nodup_append _ h hl
  · rw [cached_suggest_hit hl]
    exact h

theorem process_word_keys_nodup (suggest : SuggestionEngine) (cm : CaseMap) (document : Document)
    (s : SpellCheck) (i : Nat) (tok : Token) (h : (s.word_cache.map Prod.fst).Nodup) :
    ((process_word suggest cm document s i tok).2.1.word_cache.map Prod.fst).Nodup := by
  by_cases hd : s.dictionary (document.get_span_content tok.span) = true
  · rw [process_word_of_contains hd]; exact h
  · have hmiss := bool_eq_false hd
    cases hcomb : potentially_combine_unlintable_markdown_tokens document i with
    | none =>
      rw [process_word_of_no_comb hmiss hcomb, emit_lint_eq]
      exact cached_suggest_keys_nodup suggest s _ h
    | some pair =>
      obtain ⟨nt, us⟩ := pair
      by_cases hprobe : s.dictionary
          (document.get_span_content (us.push_by 1) ++
            document.get_span_content tok.span) = true
      · rw [process_word_of_probe hmiss hcomb hprobe]; exact h
      · rw [process_word_of_fused hmiss hcomb (bool_eq_false hprobe), emit_lint_eq]
        exact cached_suggest_keys_nodup suggest s _ h

theorem lintFrom_keys_nodup (suggest : SuggestionEngine) (cm : CaseMap) (document : Document) :
    ∀ (ts : List (Nat × Token)) (s : SpellCheck), (s.word_cache.map Prod.fst).Nodup →
      ((lintFrom suggest cm document ts s).2.1.word_cache.map Prod.fst).Nodup := by
  intro ts
  induction ts with
  | nil => intro s h; exact h
  | cons p rest ih =>
    intro s h
    obtain ⟨i, tok⟩ := p
    by_cases hw : tok.kind.is_word = true
    · simp only [lintFrom, if_pos hw]
      exact ih _ (process_word_keys_nodup suggest cm document s i tok h)
    · simp only [lintFrom, if_neg hw]
      exact ih s h

theorem lintFrom_all_known (suggest : SuggestionEngine) (cm : CaseMap) (document : Document) :
    ∀ (ts : List (Nat × Token)) (s : SpellCheck),
      (∀ p ∈ ts, p.2.kind.is_word = true →
        s.dictionary (document.get_span_content p.2.span) = true) →
      lintFrom suggest cm document ts s = ([], s, 0) := by
  intro ts
  induction ts with
  | nil => intro s _; rfl
  | cons p rest ih =>
    intro s hknown
    obtain ⟨i, tok⟩ := p
    by_cases hw : tok.kind.is_word = true
    · simp only [lintFrom, if_pos hw]
      rw [process_word_of_contains (hknown (i, tok) (List.mem_cons_self _ _) hw)]
      rw [ih s fun q hq => hknown q (List.mem_cons_of_mem _ hq)]
      rfl
    · simp only [lintFrom, if_neg hw]
      exact ih s fun q hq => hknown q (List.mem_cons_of_mem _ hq)

/-- The soundness facts transported to `SpellCheck.lint` over the enumerated
token list of the document. -/
theorem lint_emitted (suggest : SuggestionEngine) (cm : CaseMap) (s : SpellCheck) (document : Document)
    (hwf : well_formed document) :
    (∀ l ∈ (SpellCheck.lint suggest cm s document).1,
      ∃ i tok, document.tokens[i]? = some tok ∧ tok.kind.is_word = true ∧
        s.dictionary (document.get_span_content tok.span) = false ∧
        emitted_from document i tok l) ∧
    ((SpellCheck.lint suggest cm s document).1.Pairwise fun a b => a.span.stop ≤ b.span.start) := by
  have h := lintFrom_sound suggest cm document s.dictionary hwf document.tokens.enum s
    (fun p hp => mem_enum_getElem hp) (enum_pairwise _) rfl
  refine ⟨?_, h.2⟩
  intro l hl
  obtain ⟨i, tok, hmem, hw', hmiss, hef⟩ := h.1 l hl
  exact ⟨i, tok, mem_enum_getElem hmem, hw', hmiss, hef⟩

/-! ### Claim theorems -/

/-- C1: a word token whose characters (per its span) are in the dictionary is
skipped by the loop body with no lint and no state change, and running the
linter on a document whose every word token is in the dictionary returns the
empty lint list (with the state unchanged and no engine calls). -/
theorem spell_check_known_words_no_lints (suggest : SuggestionEngine) (cm : CaseMap) (document : Document)
    (s : SpellCheck) :
    (∀ idx tok, s.dictionary (document.get_span_content tok.span) = true →
      process_word suggest cm document s idx tok = (none, s, 0)) ∧
    ((∀ t ∈ document.tokens, t.kind.is_word = true →
        s.dictionary (document.get_span_content t.span) = true) →
      SpellCheck.lint suggest cm s document = ([], s, 0)) := by
  constructor
  · intro idx tok h
    exact process_word_of_contains h
  · intro hknown
    unfold SpellCheck.lint
    apply lintFrom_all_known
    intro p hp hw
    exact hknown p.2 (List.getElem?_mem (mem_enum_getElem hp)) hw

theorem spell_check_known_words_no_lints_witness :
    SpellCheck.lint engine_hello case_map_ascii (SpellCheck.new dict_hello) doc_hello =
      ([], SpellCheck.new dict_hello, 0) :=
  (spell_check_known_words_no_lints engine_hello case_map_ascii doc_hello (SpellCheck.new dict_hello)).2
    (by decide)

/-- C2: for a word token at `idx` that is not in the dictionary and whose
three preceding tokens form the bracket pattern, the probe word is the
content of the unlintable span extended one scalar to the right concatenated
with the content of the word; if the probe is in the dictionary the token is
skipped, otherwise the emitted lint's span runs from the open bracket's start
to the word's end. -/
theorem spell_check_bracket_probe (suggest : SuggestionEngine) (cm : CaseMap) (document : Document)
    (s : SpellCheck) (idx : Nat) (tok punct_1 unlintable punct_2 : Token)
    (htok : document.tokens[idx]? = some tok)
    (_hw : tok.kind.is_word = true)
    (hmiss : s.dictionary (document.get_span_content tok.span) = false)
    (hidx : 3 ≤ idx)
    (h3 : document.tokens[idx - 3]? = some punct_1)
    (ho : punct_1.kind.is_open_square = true)
    (h2 : document.tokens[idx - 2]? = some unlintable)
    (hu : unlintable.kind.is_unlintable = true)
    (h1 : document.tokens[idx - 1]? = some punct_2)
    (hc : punct_2.kind.is_close_square = true) :
    (s.dictionary (document.get_span_content (unlintable.span.push_by 1) ++
        document.get_span_content tok.span) = true →
      process_word suggest cm document s idx tok = (none, s, 0)) ∧
    (s.dictionary (document.get_span_content (unlintable.span.push_by 1) ++
        document.get_span_content tok.span) = false →
      Option.map Lint.span (process_word suggest cm document s idx tok).1 =
        some { start := punct_1.span.start, stop := tok.span.stop }) := by
  have hcomb : potentially_combine_unlintable_markdown_tokens document idx =
      some ({ tok with span := { start := punct_1.span.start, stop := tok.span.stop } },
            unlintable.span) :=
    potentially_combine_eq_some_iff.mpr
      ⟨tok, punct_1, unlintable, punct_2, htok, hidx, h3, h2, h1, ho, hc, hu, rfl, rfl⟩
  constructor
  · intro hprobe
    exact process_word_of_probe hmiss hcomb hprobe
  · intro hprobe
    rw [process_word_of_fused hmiss hcomb hprobe, emit_lint_eq]
    rfl

theorem spell_check_bracket_probe_witness :
    process_word engine_empty case_map_ascii doc_bracket (SpellCheck.new dict_probe) 3 tok_target =
      (none, SpellCheck.new dict_probe, 0) ∧
    Option.map Lint.span
        (process_word engine_empty case_map_ascii doc_bracket (SpellCheck.new dict_none) 3 tok_target).1 =
      some { start := 0, stop := 12 } :=
  ⟨(spell_check_bracket_probe engine_empty case_map_ascii doc_bracket (SpellCheck.new dict_probe) 3
      tok_target tok_open tok_link tok_close (by decide) (by decide) (by decide) (by decide)
      (by decide) (by decide) (by decide) (by decide) (by decide) (by decide)).1 (by decide),
   (spell_check_bracket_probe engine_empty case_map_ascii doc_bracket (SpellCheck.new dict_none) 3
      tok_target tok_open tok_link tok_close (by decide) (by decide) (by decide) (by decide)
      (by decide) (by decide) (by decide) (by decide) (by decide) (by decide)).2 (by decide)⟩

/-- C3: re-composition succeeds for the token at `idx` exactly when token
`idx-3` is an open bracket, token `idx-2` is unlintable and token `idx-1` is a
close bracket (in particular at least three tokens must precede); when it
fails, the loop body either skips the token or emits a lint carrying the
original word token's span. -/
theorem spell_check_recomposition_guard (document : Document) (idx : Nat) (tok : Token)
    (htok : document.tokens[idx]? = some tok) :
    ((potentially_combine_unlintable_markdown_tokens document idx).isSome = true ↔
      (3 ≤ idx ∧ ∃ punct_1 unlintable punct_2,
        document.tokens[idx - 3]? = some punct_1 ∧
        document.tokens[idx - 2]? = some unlintable ∧
        document.tokens[idx - 1]? = some punct_2 ∧
        punct_1.kind.is_open_square = true ∧
        unlintable.kind.is_unlintable = true ∧
        punct_2.kind.is_close_square = true)) ∧
    (potentially_combine_unlintable_markdown_tokens document idx = none →
      ∀ suggest cm s, (process_word suggest cm document s idx tok).1 = none ∨
        Option.map Lint.span (process_word suggest cm document s idx tok).1 = some tok.span) := by
  constructor
  · constructor
    · intro hsome
      rw [Option.isSome_iff_exists] at hsome
      obtain ⟨pair, hpair⟩ := hsome
      obtain ⟨t, sp⟩ := pair
      obtain ⟨mt, p1, u, p2, hmt, hidx, h3, h2, h1, ho, hc, hu, -, -⟩ :=
        potentially_combine_eq_some_iff.mp hpair
      exact ⟨hidx, p1, u, p2, h3, h2, h1, ho, hu, hc⟩
    · rintro ⟨hidx, p1, u, p2, h3, h2, h1, ho, hu, hc⟩
      rw [potentially_combine_eq_some_iff.mpr
        ⟨tok, p1, u, p2, htok, hidx, h3, h2, h1, ho, hc, hu, rfl, rfl⟩]
      rfl
  · intro hnone suggest cm s
    by_cases hd : s.dictionary (document.get_span_content tok.span) = true
    · rw [process_word_of_contains hd]
      exact Or.inl rfl
    · rw [process_word_of_no_comb (bool_eq_false hd) hnone, emit_lint_eq]
      exact Or.inr rfl

theorem spell_check_recomposition_guard_witness :
    (potentially_combine_unlintable_markdown_tokens doc_bracket 3).isSome = true ∧
    ((process_word engine_hello case_map_ascii doc_helo (SpellCheck.new dict_hello) 0 tok_helo).1 = none ∨
      Option.map Lint.span
          (process_word engine_hello case_map_ascii doc_helo (SpellCheck.new dict_hello) 0 tok_helo).1 =
        some tok_helo.span) :=
  ⟨(spell_check_recomposition_guard doc_bracket 3 tok_target (by decide)).1.mpr
      ⟨by omega, tok_open, tok_link, tok_close, by decide, by decide, by decide, by decide,
        by decide, by decide⟩,
   (spell_check_recomposition_guard doc_helo 0 tok_helo (by decide)).2 (by decide)
     engine_hello case_map_ascii (SpellCheck.new dict_hello)⟩

/-- C4: on a cache miss the suggestion computation runs the back-off loop
from distance 2, calling the engine with `max_results = 100` and
`max_distance = d` for `d = 2`, then 3, then 4 while the result is empty, so
between 1 and 3 engine calls happen; the final list (possibly empty) is
appended to the cache under the queried word. -/
theorem spell_check_backoff (suggest : SuggestionEngine) (s : SpellCheck) (w : CharString)
    (h : lookup_cache s.word_cache w = none) :
    cached_suggest_correct_spelling suggest s w =
      ((back_off_loop suggest w [] 2).1,
       { s with word_cache := s.word_cache ++ [(w, (back_off_loop suggest w [] 2).1)] },
       (back_off_loop suggest w [] 2).2) ∧
    back_off_loop suggest w [] 2 =
      (if (suggest w 100 2).isEmpty = true then
        (if (suggest w 100 3).isEmpty = true then (suggest w 100 4, 3)
         else (suggest w 100 3, 2))
       else (suggest w 100 2, 1)) ∧
    (1 ≤ (back_off_loop suggest w [] 2).2 ∧ (back_off_loop suggest w [] 2).2 ≤ 3) := by
  refine ⟨cached_suggest_miss h, back_off_loop_spec suggest w, ?_⟩
  rw [back_off_loop_spec suggest w]
  by_cases h2 : (suggest w 100 2).isEmpty = true <;>
    by_cases h3 : (suggest w 100 3).isEmpty = true <;>
      simp [h2, h3]

/-- C5: the linter is a total function; every emitted lint has kind
`Spelling`, priority 63, at most 3 suggestions all of the `ReplaceWith` form,
and a message containing the original misspelled word's characters as a
contiguous substring; moreover every word token that reaches Step 3 yields a
lint even when the engine has no suggestions (the suggestions list may be
empty, the lint is emitted regardless). -/
theorem spell_check_lint_shape (suggest : SuggestionEngine) (cm : CaseMap) (s : SpellCheck)
    (document : Document) (hwf : well_formed document) :
    (∀ l ∈ (SpellCheck.lint suggest cm s document).1,
      l.lint_kind = LintKind.Spelling ∧
      l.priority = 63 ∧
      l.suggestions.length ≤ 3 ∧
      (∀ g ∈ l.suggestions, ∃ w, g = Suggestion.ReplaceWith w) ∧
      (∃ orig : Token, (∃ i : Nat, document.tokens[i]? = some orig) ∧
        orig.kind.is_word = true ∧
        s.dictionary (document.get_span_content orig.span) = false ∧
        ∃ pre post : CharString,
          l.message.data = pre ++ document.get_span_content orig.span ++ post)) ∧
    (∀ idx tok, reaches_step_3 document s.dictionary idx tok = true →
      (process_word suggest cm document s idx tok).1.isSome = true) := by
  constructor
  · intro l hl
    obtain ⟨i, tok, htok, hw, hmiss, hef⟩ := (lint_emitted suggest cm s document hwf).1 l hl
    obtain ⟨hstop, hkind, hprio, hlen, hsugg, hmsg, hstart⟩ := hef
    refine ⟨hkind, hprio, hlen, hsugg, tok, ⟨i, htok⟩, hw, hmiss, ?_⟩
    have hspan : l.span = { start := l.span.start, stop := tok.span.stop } := by
      rw [← hstop]
    have hb := well_formed_token_bounds hwf htok
    rcases hstart with hstart | ⟨hidx, p1, u, p2, h3, h2, h1, ho, hu, hc, hstart⟩
    · refine ⟨message_head, message_tail, ?_⟩
      rw [hmsg, hspan, hstart]
      rfl
    · have hb1 := well_formed_token_bounds hwf h3
      have horder : p1.span.stop ≤ tok.span.start :=
        well_formed_stop_le_start hwf (show i - 3 < i by omega) h3 htok
      have hac : p1.span.start ≤ tok.span.start := le_trans hb1.1 horder
      have hdec : document.get_span_content
          { start := p1.span.start, stop := tok.span.stop } =
            document.get_span_content { start := p1.span.start, stop := tok.span.start } ++
              document.get_span_content tok.span := by
        rw [get_span_content_decompose document hac hb.1]
      refine ⟨message_head ++
        document.get_span_content { start := p1.span.start, stop := tok.span.start },
        message_tail, ?_⟩
      rw [hmsg, hspan, hstart]
      show message_head ++
          document.get_span_content { start := p1.span.start, stop := tok.span.stop } ++
            message_tail = _
      rw [hdec]
      simp [List.append_assoc]
  · intro idx tok hreach
    simp only [reaches_step_3, Bool.and_eq_true, Bool.not_eq_true'] at hreach
    obtain ⟨⟨hw, hmiss⟩, hmatch⟩ := hreach
    cases hcomb : potentially_combine_unlintable_markdown_tokens document idx with
    | none =>
      rw [process_word_of_no_comb hmiss hcomb, emit_lint_eq]
      rfl
    | some pair =>
      obtain ⟨nt, us⟩ := pair
      rw [hcomb] at hmatch
      simp only [Bool.not_eq_true'] at hmatch
      rw [process_word_of_fused hmiss hcomb hmatch, emit_lint_eq]
      rfl

theorem spell_check_lint_shape_witness :
    lint_helo.lint_kind = LintKind.Spelling ∧ lint_helo.priority = 63 ∧
      lint_helo.suggestions.length ≤ 3 ∧
      (process_word engine_hello case_map_ascii doc_helo (SpellCheck.new dict_hello) 0 tok_helo).1.isSome =
        true := by
  have h := spell_check_lint_shape engine_hello case_map_ascii (SpellCheck.new dict_hello) doc_helo
    ⟨by decide, by simp [doc_helo]⟩
  have h1 := h.1 lint_helo (by decide)
  exact ⟨h1.1, h1.2.1, h1.2.2.1, h.2 0 tok_helo (by decide)⟩

/-- C6 (amended): for any instance of the Unicode case functions, a lint
emitted for a word whose first character is uppercase carries exactly the
engine's first three suggestions with each suggestion's first character
replaced by the first scalar of its uppercase mapping; consequently every
non-empty suggestion of such a lint begins with the first scalar of the
uppercase mapping of its pre-shaping first character — an uppercase character
whenever that first scalar is uppercase (as for cased letters), but not in
general (see the counterexample, where that character is an underscore). -/
theorem spell_check_capitalization (suggest : SuggestionEngine) (cm : CaseMap)
    (document : Document) (s : SpellCheck) (idx : Nat) (tok : Token) (mis_f : Char)
    (hhead : (document.get_span_content tok.span).head? = some mis_f)
    (hup : cm.is_uppercase mis_f = true) :
    ∀ l, (process_word suggest cm document s idx tok).1 = some l →
      l.suggestions =
        (((cached_suggest_correct_spelling suggest s
            (document.get_span_content tok.span)).1.take 3).map
              (capitalize_first cm)).map
          Suggestion.ReplaceWith ∧
      ∀ w, Suggestion.ReplaceWith w ∈ l.suggestions → ∀ c t, w = c :: t →
        ∃ c₀, c = cm.to_uppercase_first c₀ := by
  intro l hl
  have hcap : ∀ ps, capitalize_like cm (document.get_span_content tok.span) ps =
      ps.map (capitalize_first cm) := by
    intro ps
    unfold capitalize_like
    rw [hhead]
    simp [hup]
  have hsug : l.suggestions =
      (((cached_suggest_correct_spelling suggest s
          (document.get_span_content tok.span)).1.take 3).map
            (capitalize_first cm)).map
        Suggestion.ReplaceWith := by
    by_cases hd : s.dictionary (document.get_span_content tok.span) = true
    · rw [process_word_of_contains hd] at hl
      simp at hl
    · have hmiss := bool_eq_false hd
      cases hcomb : potentially_combine_unlintable_markdown_tokens document idx with
      | none =>
        rw [process_word_of_no_comb hmiss hcomb, emit_lint_eq] at hl
        simp only [Option.some.injEq] at hl
        subst hl
        rw [hcap]
      | some pair =>
        obtain ⟨nt, us⟩ := pair
        by_cases hprobe : s.dictionary
            (document.get_span_content (us.push_by 1) ++
              document.get_span_content tok.span) = true
        · rw [process_word_of_probe hmiss hcomb hprobe] at hl
          simp at hl
        · rw [process_word_of_fused hmiss hcomb (bool_eq_false hprobe), emit_lint_eq] at hl
          simp only [Option.some.injEq] at hl
          subst hl
          rw [hcap]
  refine ⟨hsug, ?_⟩
  intro w hw c t hct
  rw [hsug] at hw
  simp only [List.mem_map] at hw
  obtain ⟨v, ⟨v0, -, hv0⟩, hvw⟩ := hw
  obtain rfl : v = w := by simpa using hvw
  cases v0 with
  | nil =>
    simp only [capitalize_first] at hv0
    rw [← hv0] at hct
    simp at hct
  | cons c₀ t₀ =>
    simp only [capitalize_first] at hv0
    rw [← hv0] at hct
    simp only [List.cons.injEq] at hct
    exact ⟨c₀, hct.1.symm⟩

theorem spell_check_capitalization_witness :
    lint_qx.suggestions =
      (((cached_suggest_correct_spelling engine_underscore (SpellCheck.new dict_underscore)
          (doc_qx.get_span_content tok_qx.span)).1.take 3).map
            (capitalize_first case_map_ascii)).map
        Suggestion.ReplaceWith :=
  (spell_check_capitalization engine_underscore case_map_ascii doc_qx
    (SpellCheck.new dict_underscore) 0 tok_qx 'Q' (by decide) (by decide) lint_qx
    (by decide)).1

/-- C6 counterexample: on the document `Qx` against a dictionary holding the
identifier-style word `_x`, the reference engine suggests `_x`; the original
word's first character `Q` is uppercase, yet the emitted non-empty suggestion
begins with `_`, a character that is its own first-scalar uppercase mapping
and is not uppercase, so the claim's clause that every non-empty suggestion
of such a lint begins with an uppercase character fails here.  Every
character involved is ASCII, where the fixture case map coincides with the
Unicode `is_uppercase`/`to_uppercase` used by the source. -/
theorem spell_check_capitalization_counterexample :
    ((SpellCheck.lint engine_underscore case_map_ascii (SpellCheck.new dict_underscore)
        doc_qx).1.map Lint.suggestions) = [[Suggestion.ReplaceWith ['_', 'x']]] ∧
    (doc_qx.get_span_content tok_qx.span).head? = some 'Q' ∧
    case_map_ascii.is_uppercase 'Q' = true ∧
    case_map_ascii.to_uppercase_first '_' = '_' ∧
    case_map_ascii.is_uppercase '_' = false := by
  refine ⟨by decide, by decide, by decide, by decide, by decide⟩

theorem spell_check_backoff_witness :
    cached_suggest_correct_spelling engine_empty (SpellCheck.new dict_none) ['a'] =
      ((back_off_loop engine_empty ['a'] [] 2).1,
       { SpellCheck.new dict_none with
           word_cache := (SpellCheck.new dict_none).word_cache ++
             [(['a'], (back_off_loop engine_empty ['a'] [] 2).1)] },
       (back_off_loop engine_empty ['a'] [] 2).2) :=
  (spell_check_backoff engine_empty (SpellCheck.new dict_none) ['a'] rfl).1

/-- C7: linting the same document again from the state left by a first lint
pass (same engine, dictionary unchanged) produces the identical lint
sequence, leaves the state untouched, and performs zero engine calls; when
the first pass started from an empty cache, the resulting cache has pairwise
distinct keys, and a word form is a key exactly when some token of the
document reached Step 3 with that word form. -/
theorem spell_check_cache_transparent (suggest : SuggestionEngine) (cm : CaseMap) (document : Document)
    (s₀ : SpellCheck) (l₁ : List Lint) (s₁ : SpellCheck) (c₁ : Nat)
    (h : SpellCheck.lint suggest cm s₀ document = (l₁, s₁, c₁)) :
    SpellCheck.lint suggest cm s₁ document = (l₁, s₁, 0) ∧
    (s₀.word_cache = [] →
      ((s₁.word_cache.map Prod.fst).Nodup ∧
       ∀ w, w ∈ s₁.word_cache.map Prod.fst ↔
         ∃ p ∈ document.tokens.enum,
           reaches_step_3 document s₀.dictionary p.1 p.2 = true ∧
           document.get_span_content p.2.span = w)) := by
  have h1 : (SpellCheck.lint suggest cm s₀ document).1 = l₁ := by rw [h]
  have h2 : (SpellCheck.lint suggest cm s₀ document).2.1 = s₁ := by rw [h]
  have hdict : s₁.dictionary = s₀.dictionary := by
    rw [← h2]
    exact lintFrom_dictionary suggest cm document document.tokens.enum s₀
  constructor
  · have hsub : sub_cache
        (lintFrom suggest cm document document.tokens.enum s₀).2.1.word_cache
        s₁.word_cache := by
      rw [← h2]
      exact sub_cache_refl _
    have hrep := lintFrom_replay suggest cm document document.tokens.enum s₀ s₁ hdict hsub
    show lintFrom suggest cm document document.tokens.enum s₁ = (l₁, s₁, 0)
    rw [hrep]
    rw [show (lintFrom suggest cm document document.tokens.enum s₀).1 = l₁ from h1]
  · intro hempty
    constructor
    · have hnd := lintFrom_keys_nodup suggest cm document document.tokens.enum s₀
        (by rw [hempty]; simp)
      rw [← h2]
      exact hnd
    · intro w
      have hk := lintFrom_keys suggest cm document s₀.dictionary document.tokens.enum s₀ rfl w
      have hk' : w ∈ (lintFrom suggest cm document document.tokens.enum s₀).2.1.word_cache.map
          Prod.fst ↔
          ∃ p ∈ document.tokens.enum,
            reaches_step_3 document s₀.dictionary p.1 p.2 = true ∧
            document.get_span_content p.2.span = w := by
        rw [hk, hempty]
        simp
      rw [← h2]
      exact hk'

theorem spell_check_cache_transparent_witness :
    SpellCheck.lint engine_hello case_map_ascii
        (SpellCheck.lint engine_hello case_map_ascii (SpellCheck.new dict_hello) doc_helo).2.1 doc_helo =
      ((SpellCheck.lint engine_hello case_map_ascii (SpellCheck.new dict_hello) doc_helo).1,
       (SpellCheck.lint engine_hello case_map_ascii (SpellCheck.new dict_hello) doc_helo).2.1, 0) :=
  (spell_check_cache_transparent engine_hello case_map_ascii doc_helo (SpellCheck.new dict_hello)
    (SpellCheck.lint engine_hello case_map_ascii (SpellCheck.new dict_hello) doc_helo).1
    (SpellCheck.lint engine_hello case_map_ascii (SpellCheck.new dict_hello) doc_helo).2.1
    (SpellCheck.lint engine_hello case_map_ascii (SpellCheck.new dict_hello) doc_helo).2.2 rfl).1

/-- C8: on a well-formed document every emitted lint's span — fused spans
included — is a valid half-open interval contained in the document content:
its start does not exceed its stop, and its stop does not exceed the content
length. -/
theorem spell_check_lint_span_bounds (suggest : SuggestionEngine) (cm : CaseMap) (s : SpellCheck)
    (document : Document) (hwf : well_formed document) :
    ∀ l ∈ (SpellCheck.lint suggest cm s document).1,
      l.span.start ≤ l.span.stop ∧ l.span.stop ≤ document.content.length := by
  intro l hl
  obtain ⟨i, tok, htok, hw, -, hef⟩ := (lint_emitted suggest cm s document hwf).1 l hl
  obtain ⟨hstop, -, -, -, -, -, hstart⟩ := hef
  have hb := well_formed_token_bounds hwf htok
  rcases hstart with hstart | ⟨hidx, p1, u, p2, h3, h2, h1, ho, hu, hc, hstart⟩
  · constructor
    · rw [hstart, hstop]; exact hb.1
    · rw [hstop]; exact hb.2
  · have hb1 := well_formed_token_bounds hwf h3
    have horder : p1.span.stop ≤ tok.span.start :=
      well_formed_stop_le_start hwf (show i - 3 < i by omega) h3 htok
    constructor
    · rw [hstart, hstop]
      exact le_trans hb1.1 (le_trans horder hb.1)
    · rw [hstop]; exact hb.2

theorem spell_check_lint_span_bounds_witness :
    lint_helo.span.start ≤ lint_helo.span.stop ∧
      lint_helo.span.stop ≤ doc_helo.content.length :=
  spell_check_lint_span_bounds engine_hello case_map_ascii (SpellCheck.new dict_hello) doc_helo
    ⟨by decide, by simp [doc_helo]⟩ lint_helo (by decide)

/-- C9: `SpellCheck::new` always starts with an empty suggestion cache, and
the backend builds a brand-new linter through `create_linter` for every
diagnostics request, so the diagnostics of a request are those of a fresh
empty-cache linter over the merged dictionary — no cached suggestion state
persists across requests. -/
theorem spell_check_fresh_linter (d : Dict) (engine_of : Dict → SuggestionEngine)
    (cm : CaseMap) (b : Backend) (url : String) (document : Document)
    (h : lookup_assoc b.files url = some document) :
    (SpellCheck.new d).word_cache = [] ∧
    (create_linter b url).word_cache = [] ∧
    generate_diagnostics engine_of cm b url =
      (SpellCheck.lint (engine_of (backend_dictionary b url)) cm
        (SpellCheck.new (backend_dictionary b url)) document).1 := by
  refine ⟨rfl, rfl, ?_⟩
  unfold generate_diagnostics
  rw [h]
  rfl

theorem spell_check_fresh_linter_witness :
    (SpellCheck.new dict_hello).word_cache = [] ∧
    (create_linter backend_ex "file.md").word_cache = [] ∧
    generate_diagnostics engine_of_const case_map_ascii backend_ex "file.md" =
      (SpellCheck.lint (engine_of_const (backend_dictionary backend_ex "file.md"))
        case_map_ascii (SpellCheck.new (backend_dictionary backend_ex "file.md")) doc_helo).1 :=
  spell_check_fresh_linter dict_hello engine_of_const case_map_ascii backend_ex "file.md" doc_helo (by decide)

/-- C10 (amended): on a well-formed document, consecutive emitted lints
satisfy `previous.span.stop ≤ next.span.start` pairwise (so the list is
ordered by non-decreasing span start and the spans are pairwise
non-overlapping, a fused span never reaching back into the previous word
token); the starts are strictly ascending under the additional assumption
that every word token's span is non-empty (the counterexample shows strict
ascent fails for empty word-token spans). -/
theorem spell_check_lint_ordered (suggest : SuggestionEngine) (cm : CaseMap) (s : SpellCheck)
    (document : Document) (hwf : well_formed document) :
    ((SpellCheck.lint suggest cm s document).1.Pairwise fun a b =>
      a.span.stop ≤ b.span.start) ∧
    (∀ l ∈ (SpellCheck.lint suggest cm s document).1, l.span.start ≤ l.span.stop) ∧
    ((SpellCheck.lint suggest cm s document).1.Pairwise fun a b =>
      ¬(a.span.start < b.span.stop ∧ b.span.start < a.span.stop)) ∧
    ((∀ t ∈ document.tokens, t.kind.is_word = true → t.span.start < t.span.stop) →
      (SpellCheck.lint suggest cm s document).1.Pairwise span_start_lt) := by
  have h := lint_emitted suggest cm s document hwf
  have hse : ∀ l ∈ (SpellCheck.lint suggest cm s document).1,
      l.span.start ≤ l.span.stop := by
    intro l hl
    obtain ⟨i, tok, htok, hw, -, hef⟩ := h.1 l hl
    obtain ⟨hstop, -, -, -, -, -, hstart⟩ := hef
    have hb := well_formed_token_bounds hwf htok
    rcases hstart with hstart | ⟨hidx, p1, u, p2, h3, h2, h1, ho, hu, hc, hstart⟩
    · rw [hstart, hstop]; exact hb.1
    · have hb1 := well_formed_token_bounds hwf h3
      have horder : p1.span.stop ≤ tok.span.start :=
        well_formed_stop_le_start hwf (show i - 3 < i by omega) h3 htok
      rw [hstart, hstop]
      exact le_trans hb1.1 (le_trans horder hb.1)
  refine ⟨h.2, hse, ?_, ?_⟩
  · refine List.Pairwise.imp ?_ h.2
    intro a b hab
    intro hcon
    exact absurd hcon.2 (Nat.not_lt.mpr hab)
  · intro hnonempty
    refine List.Pairwise.imp_of_mem ?_ h.2
    intro a b ha hb hab
    obtain ⟨i, tok, htok, hw, -, hef⟩ := h.1 a ha
    obtain ⟨hstop, -, -, -, -, -, hstart⟩ := hef
    have hne := hnonempty tok (List.getElem?_mem htok) hw
    have hstart_le : a.span.start ≤ tok.span.start := by
      rcases hstart with hs | ⟨hidx, p1, u, p2, h3, h2, h1, ho, hu, hc, hs⟩
      · rw [hs]
      · rw [hs]
        have hp1 := well_formed_token_bounds hwf h3
        exact le_trans hp1.1
          (well_formed_stop_le_start hwf (show i - 3 < i by omega) h3 htok)
    show a.span.start < b.span.start
    omega

theorem spell_check_lint_ordered_witness :
    List.Pairwise span_start_lt
      (SpellCheck.lint engine_hello case_map_ascii (SpellCheck.new dict_hello) doc_helo).1 :=
  (spell_check_lint_ordered engine_hello case_map_ascii (SpellCheck.new dict_hello) doc_helo
    ⟨by decide, by simp [doc_helo]⟩).2.2.2 (by decide)

/-- C10 counterexample: the document with two empty word tokens at position 0
is well-formed, both tokens are misspelled, and the two emitted lints share
the start position 0, so the output is not ordered by strictly ascending
span start as the claim states. -/
theorem spell_check_lint_ordered_counterexample :
    well_formed doc_empty_words ∧
    ¬List.Pairwise span_start_lt
      (SpellCheck.lint engine_empty case_map_ascii (SpellCheck.new dict_none) doc_empty_words).1 := by
  constructor
  · exact ⟨by decide, by simp [doc_empty_words]⟩
  · intro hp
    have hlist : (SpellCheck.lint engine_empty case_map_ascii (SpellCheck.new dict_none) doc_empty_words).1 =
        [lint_empty_word, lint_empty_word] := by decide
    rw [hlist] at hp
    have hlt := (List.pairwise_cons.mp hp).1 lint_empty_word (by simp)
    exact absurd hlt (lt_irrefl _)

end Harper
